import Mathlib

/-!
Verification of the Mayondo Furniture inventory core
(`home/models.py`, `home/views.py`) against its specification.

The embedding is shallow and executable:

* Python strings are embedded as `List Char` (`Str`), with the string
  operations used by the source (`startswith`, lexicographic ordering from
  `ORDER BY product_id`, `split('-')`, `int(...)`, `'%04d' % n`,
  case-insensitive containment) defined structurally so that concrete
  instances evaluate inside the kernel.
* `Decimal` values are embedded as `ℚ` (Python's `Decimal` arithmetic on
  the 2-decimal-place amounts appearing here is exact, and
  `quantize(Decimal('0.01'), ROUND_HALF_UP)` is half-up rounding to two
  decimal places, embedded as `roundHalfUp2`; all amounts in the claims
  are nonnegative, where `ROUND_HALF_UP` agrees with rounding via `⌊⌋`).
* Database rows are embedded as lists of records; a Django queryset
  `filter`/`aggregate(Sum(..))` becomes `List.filter`/a sum over `List.map`.
* Fallible operations (`clean` raising `ValidationError`, the failure
  branches of the `addSale` view) return `Except`/`Option` values.
-/

/-! ## Strings as lists of characters -/

/-- Python strings, embedded as lists of characters. -/
abbrev Str := List Char

/-- `hay.startswith(needle)` — first argument is the required stem. -/
def strStarts : Str → Str → Bool
  | [], _ => true
  | _ :: _, [] => false
  | a :: s, b :: t => a = b && strStarts s t

/-- Lexicographic strict order on strings by character code: the order SQL
uses for `ORDER BY product_id` on the ASCII ids generated here. -/
def strLt : Str → Str → Bool
  | [], [] => false
  | [], _ :: _ => true
  | _ :: _, [] => false
  | a :: s, b :: t => if a < b then true else if b < a then false else strLt s t

/-- `qs.order_by('product_id').last()` — the lexicographically greatest
element of the list, `none` on an empty queryset. -/
def lexLast? : List Str → Option Str
  | [] => none
  | s :: ss =>
    match lexLast? ss with
    | none => some s
    | some m => some (if strLt m s then s else m)

/-- Python `s.split('-')`. -/
def splitOnDash : Str → List Str
  | [] => [[]]
  | c :: s =>
    if c = '-' then [] :: splitOnDash s
    else
      match splitOnDash s with
      | [] => [[c]]
      | p :: ps => (c :: p) :: ps

/-- Value of a decimal digit character, `none` for non-digits. -/
def digitVal? (c : Char) : Option Nat :=
  if '0' ≤ c ∧ c ≤ '9' then some (c.toNat - 48) else none

/-- Python `int(s)` on a nonnegative decimal literal; `none` (an exception
in the source) on the empty string or any non-digit character. -/
def digitsToNat? (s : Str) : Option Nat :=
  match s with
  | [] => none
  | _ =>
    s.foldl
      (fun acc c =>
        match acc, digitVal? c with
        | some a, some d => some (a * 10 + d)
        | _, _ => none)
      (some 0)

/-- Python `f'{n:04d}'`: the decimal digits of `n`, left-padded with zeros
to at least four characters. -/
def pad4 (n : Nat) : Str :=
  let ds := Nat.toDigits 10 n
  List.replicate (4 - ds.length) '0' ++ ds

/-- Python `s.lower()` (ASCII case folding, as used by `icontains`). -/
def lowerStr (s : Str) : Str := s.map Char.toLower

/-- Python `needle in hay` on strings (contiguous substring test). -/
def strContains (hay needle : Str) : Bool :=
  match hay with
  | [] => needle.isEmpty
  | _ :: t => strStarts needle hay || strContains t needle

/-- Django `message__icontains=needle`: case-insensitive containment. -/
def strIContains (hay needle : Str) : Bool :=
  strContains (lowerStr hay) (lowerStr needle)

/-! ## Data model (`home/models.py`)

Fields not referenced by any claim (auto keys, `supplier`, `origin`,
`customer`, `payment_type`, `sales_agent`, `description`) are omitted from
the records; dates are embedded as `YYYYMMDD` numerals (order-preserving). -/

/-- One `Stock` row (one inventory lot). `quantity` is an `IntegerField`;
`unit_cost`/`total_cost` are `DecimalField`s. -/
structure Stock where
  product_name : Str
  product_type : Str
  date : Nat
  quantity : Int
  unit_cost : ℚ
  total_cost : ℚ
deriving DecidableEq, Repr

/-- One `Sale` row. `total_sales_amount` is computed by `Sale.clean`. -/
structure Sale where
  product_name : Str
  product_type : Str
  date : Nat
  quantity : Int
  unit_price : ℚ
  total_sales_amount : ℚ
  transport_required : Bool
deriving DecidableEq, Repr

/-- One `Notification` row. `user` and `id` are embedded as numeric keys;
`created_at` as a numeric timestamp. -/
structure Notification where
  id : Nat
  user : Nat
  message : Str
  activity_type : Str
  is_read : Bool
  created_at : Nat
deriving DecidableEq, Repr

/-- The `(product_name, product_type)` identity a sale is matched against
stock with (`Product.unique_together = ['name', 'product_type']`). -/
abbrev ProductKey := Str × Str

/-- Key of a stock lot. -/
def Stock.key (l : Stock) : ProductKey := (l.product_name, l.product_type)

/-- Key of a sale. -/
def Sale.key (s : Sale) : ProductKey := (s.product_name, s.product_type)

/-! ## Sale valuation (`Sale.clean`, models.py lines 152-160) -/

/-- `Decimal.quantize(Decimal('0.01'), rounding=ROUND_HALF_UP)` for the
nonnegative amounts arising here: half-up rounding to 2 decimal places. -/
def roundHalfUp2 (x : ℚ) : ℚ := ((⌊x * 100 + 1 / 2⌋ : ℤ) : ℚ) / 100

/-- The total-amount computation of `Sale.clean`:
`base_amount = quantity * unit_price`; a 5% transport fee is added when
`transport_required`; the result is quantized half-up to 2 places. -/
def computeSaleTotal (quantity : Int) (unit_price : ℚ)
    (transport_required : Bool) : ℚ :=
  let base := (quantity : ℚ) * unit_price
  if transport_required then roundHalfUp2 (base + base * (5 / 100))
  else roundHalfUp2 base

/-! ## Stock validation (`Stock.clean` / `Stock.save`, models.py 305-386) -/

/-- `PRODUCT_CHOICES` of the `Stock`/`Product` models. -/
def stockNameChoices : List Str :=
  [("Timber".data), ("Sofa".data), ("Tables".data), ("Cupboards".data),
   ("Drawer".data), ("Poles".data)]

/-- `PRODUCT_TYPE_CHOICES`. -/
def stockTypeChoices : List Str := [("Wood".data), ("Furniture".data)]

/-- The `ValidationError` cases `Stock.clean` can raise, in source order. -/
inductive StockError where
  | futureDate
  | negativeQuantity
  | invalidName
  | invalidType
  | nonPositiveUnitCost
deriving DecidableEq, Repr

/-- The mutation `Stock.clean` performs after its checks pass, and which
every `record.save()` therefore re-runs: `total_cost = quantity * unit_cost`. -/
def saveStock (l : Stock) : Stock :=
  { l with total_cost := (l.quantity : ℚ) * l.unit_cost }

/-- `Stock.clean` (models.py 305-345): reject future dates, negative
quantities, names/types outside the fixed choices (skipped for empty
strings, which are falsy in the source), and non-positive unit costs; on
success recompute `total_cost`. `today` is `date.today()`. -/
def stockClean (today : Nat) (l : Stock) : Except StockError Stock :=
  if today < l.date then .error .futureDate
  else if l.quantity < 0 then .error .negativeQuantity
  else if ¬l.product_name.isEmpty ∧ l.product_name ∉ stockNameChoices then
    .error .invalidName
  else if ¬l.product_type.isEmpty ∧ l.product_type ∉ stockTypeChoices then
    .error .invalidType
  else if l.unit_cost ≤ 0 then .error .nonPositiveUnitCost
  else .ok (saveStock l)

/-! ## Stock ledger (`addSale`, views.py 832-944) -/

/-- `Stock.objects.filter(product_name=.., product_type=..)
.aggregate(total_quantity=Sum('quantity'))` with the source's `or 0` for
an empty queryset: the consolidated available quantity of a product. -/
def availableQuantity (stock : List Stock) (k : ProductKey) : Int :=
  ((stock.filter fun l => l.key = k).map (·.quantity)).sum

/-- Insert a lot into a date-descending list, keeping it date-descending. -/
def insertByDateDesc (l : Stock) : List Stock → List Stock
  | [] => [l]
  | x :: xs => if x.date < l.date then l :: x :: xs else x :: insertByDateDesc l xs

/-- `order_by('-date')`: the lots in date-descending order
("deduct from newest stock first" in the source's comment). -/
def sortByDateDesc : List Stock → List Stock
  | [] => []
  | l :: ls => insertByDateDesc l (sortByDateDesc ls)

/-- The deduction loop of `addSale` (views.py 910-923): walk the ordered
lots; a lot covering the remainder is decremented and the loop stops; a
smaller lot is zeroed and the remainder carries on. Each touched record is
saved, re-running the `total_cost` recomputation of `Stock.clean`. -/
def deductFromLots (rem : Int) : List Stock → List Stock
  | [] => []
  | l :: ls =>
    if rem ≤ 0 then l :: ls
    else if rem ≤ l.quantity then
      saveStock { l with quantity := l.quantity - rem } :: ls
    else
      saveStock { l with quantity := 0 } :: deductFromLots (rem - l.quantity) ls

/-- The typed failures of the sale-recording path. -/
inductive SaleFailure where
  /-- The form is invalid: `Sale.clean` rejects `quantity <= 0`. -/
  | invalidQuantity
  /-- "is not available in stock!": no consolidated stock at all
  (views.py 848). -/
  | productNotAvailable
  /-- "Insufficient stock ... Available quantity: a units, Requested: r
  units" (views.py 876-882). -/
  | insufficientStock (available requested : Int)
deriving DecidableEq, Repr

/-- Successful consumption: the updated stock table and the consolidated
quantity reported back to the caller (views.py 940-944). -/
structure ConsumeOk where
  stock : List Stock
  remaining : Int
deriving DecidableEq, Repr

/-- The stock-consumption core of `addSale` (views.py 832-944): check the
consolidated quantity and the existence of a candidate lot, fail before
touching anything when stock is missing or insufficient, otherwise deduct
`q` across the candidate lots in date-descending order. Lots that are not
candidates (other products, or `quantity <= 0`) are untouched rows of the
table. -/
def consume (stock : List Stock) (k : ProductKey) (q : Int) :
    Except SaleFailure ConsumeOk :=
  let total := availableQuantity stock k
  let candidates := stock.filter fun l => l.key = k ∧ 0 < l.quantity
  if total ≤ 0 ∨ candidates.isEmpty then .error .productNotAvailable
  else if total < q then .error (.insufficientStock total q)
  else
    let untouched := stock.filter fun l => ¬(l.key = k ∧ 0 < l.quantity)
    let newStock := untouched ++ deductFromLots q (sortByDateDesc candidates)
    .ok ⟨newStock, availableQuantity newStock k⟩

/-- State threaded through the sale/receipt operations: the stock table,
plus the receipts accepted and the sales recorded so far (as
`(product, quantity)` pairs). -/
structure LedgerState where
  stock : List Stock
  receipts : List (ProductKey × Int)
  sales : List (ProductKey × Int)
deriving DecidableEq, Repr

/-- The empty ledger. -/
def initLedger : LedgerState := ⟨[], [], []⟩

/-- One `addSale` request: the form is validated first (`Sale.clean`
rejects non-positive quantities), then `consume` runs; on any failure the
request renders an error and nothing is written. -/
def addSaleStep (s : LedgerState) (k : ProductKey) (q : Int) :
    LedgerState × Option SaleFailure :=
  if q ≤ 0 then (s, some .invalidQuantity)
  else
    match consume s.stock k q with
    | .error e => (s, some e)
    | .ok r => (⟨r.stock, s.receipts, s.sales ++ [(k, q)]⟩, none)

/-- One `addStock` receipt: `Stock.save` runs `full_clean`; a validation
error aborts the request, otherwise the new lot row is inserted. -/
def receiptStep (today : Nat) (s : LedgerState) (l : Stock) : LedgerState :=
  match stockClean today l with
  | .error _ => s
  | .ok saved => ⟨s.stock ++ [saved], s.receipts ++ [(l.key, l.quantity)], s.sales⟩

/-- An operation against the ledger. -/
inductive LedgerOp where
  | receipt (l : Stock)
  | sell (k : ProductKey) (q : Int)

/-- Interpreter for ledger operations. -/
def ledgerStep (today : Nat) (s : LedgerState) : LedgerOp → LedgerState
  | .receipt l => receiptStep today s l
  | .sell k q => (addSaleStep s k q).1

/-- Run a sequence of operations from the empty ledger. -/
def runLedger (today : Nat) (ops : List LedgerOp) : LedgerState :=
  ops.foldl (ledgerStep today) initLedger

/-- Sum of the quantities recorded for one product key. -/
def sumFor (l : List (ProductKey × Int)) (k : ProductKey) : Int :=
  ((l.filter fun p => p.1 = k).map (·.2)).sum

/-! ## Identifier generator (`Sale.save` 194-211 / `Stock.save` 367-384) -/

/-- The stem `f'{PREFIX}-{date_str}'` the query filters on
(`product_id__startswith`). -/
def idStem (pfx day : Str) : Str := pfx ++ ('-' :: day)

/-- ID generation of `Sale.save`/`Stock.save`: filter today's ids by stem,
take the lexicographically last (`order_by('product_id').last()`), parse
the `-`-suffix with `int(..)` and add one (starting at 1 when no record
matches), and render as `f'{pfx}-{day}-{seq:04d}'`. `none` models the
`int()` exception on a malformed existing id, which aborts the save. -/
def genId (pfx day : Str) (existing : List Str) : Option Str :=
  let todays := existing.filter fun s => strStarts (idStem pfx day) s
  match lexLast? todays with
  | none => some (idStem pfx day ++ ('-' :: pad4 1))
  | some last =>
    match digitsToNat? ((splitOnDash last).getLastD []) with
    | none => none
    | some n => some (idStem pfx day ++ ('-' :: pad4 (n + 1)))

/-! ## Dashboard financials (`dashBoard`, views.py 406-458) -/

/-- Revenue contribution of one sale (views.py 419-431): the stored
`total_sales_amount` when `unit_price` and `total_sales_amount` are
truthy, else the fallback `unit_price * quantity` plus a 5% transport fee
when required, else 0. -/
def saleAmount (s : Sale) : ℚ :=
  if s.unit_price ≠ 0 ∧ s.total_sales_amount ≠ 0 then s.total_sales_amount
  else if s.unit_price ≠ 0 ∧ s.quantity ≠ 0 then
    let base := s.unit_price * (s.quantity : ℚ)
    if s.transport_required then base + base * (5 / 100) else base
  else 0

/-- The stock rows matched against a sale for costing (views.py 437-440);
`product_ref` is auto-populated from the name/type pair on every save, so
the match is on the `(product_name, product_type)` key. -/
def matchingLots (stock : List Stock) (s : Sale) : List Stock :=
  stock.filter fun l => l.key = s.key

/-- The `unit_costs` list of views.py 443-446: the unit costs of the
matching lots that are truthy and positive (equivalently, positive). -/
def unitCosts (stock : List Stock) (s : Sale) : List ℚ :=
  (matchingLots stock s).filterMap fun l =>
    if 0 < l.unit_cost then some l.unit_cost else none

/-- Cost-of-sales contribution of one sale (views.py 448-451): the
unweighted arithmetic mean of `unit_costs` times the quantity sold, or 0
when no costs were collected. -/
def saleCost (stock : List Stock) (s : Sale) : ℚ :=
  let cs := unitCosts stock s
  if cs = [] then 0 else cs.sum / (cs.length : ℚ) * (s.quantity : ℚ)

/-- `total_revenue` of the dashboard. -/
def totalRevenue (sales : List Sale) : ℚ := (sales.map saleAmount).sum

/-- `total_cost_of_sales` of the dashboard. -/
def totalCostOfSales (stock : List Stock) (sales : List Sale) : ℚ :=
  (sales.map (saleCost stock)).sum

/-- `profit = total_revenue - total_cost_of_sales` (views.py 458). -/
def profit (stock : List Stock) (sales : List Sale) : ℚ :=
  totalRevenue sales - totalCostOfSales stock sales

/-! ## Low-stock notifications (views.py 260-324, 381-404) -/

/-- `Stock.objects.values('product_name', 'product_type')
.annotate(total_quantity=Sum('quantity'))`: one `(key, total)` row per
distinct product key. -/
def consolidatedStock (stock : List Stock) : List (ProductKey × Int) :=
  ((stock.map Stock.key).dedup).map fun k => (k, availableQuantity stock k)

/-- The dashboard's low-stock selection (views.py 382):
consolidated quantity strictly between 0 and 5. -/
def lowStockProducts (stock : List Stock) : List (ProductKey × Int) :=
  (consolidatedStock stock).filter fun p => 0 < p.2 ∧ p.2 < 5

/-- The message filter of views.py 283-287: addressed to `m`, containing
"LOW STOCK ALERT" and containing "name (type)" (both `icontains`). -/
def lowStockMsgMatch (m : Nat) (k : ProductKey) (n : Notification) : Bool :=
  n.user = m && strIContains n.message ("LOW STOCK ALERT".data)
    && strIContains n.message (k.1 ++ (" (".data) ++ k.2 ++ (")".data))

/-- The "RESTOCKED" notification created at views.py 293-297. -/
def restockNotif (nextId : Nat) (m : Nat) (p : ProductKey × Int) (now : Nat) :
    Notification :=
  ⟨nextId, m,
   ("✅ RESTOCKED: ".data) ++ p.1.1 ++ (" (".data) ++ p.1.2 ++ (") - Now ".data)
     ++ Nat.toDigits 10 p.2.toNat ++ (" units available".data),
   ("success".data), false, now⟩

/-- The "LOW STOCK ALERT" notification created at views.py 316-320. -/
def lowStockNotif (nextId : Nat) (m : Nat) (p : ProductKey × Int) (now : Nat) :
    Notification :=
  ⟨nextId, m,
   ("⚠️ LOW STOCK ALERT: ".data) ++ p.1.1 ++ (" (".data) ++ p.1.2
     ++ (") - Only ".data) ++ Nat.toDigits 10 p.2.toNat
     ++ (" units remaining".data),
   ("warning".data), false, now⟩

/-- The clear-and-restock body of
`create_low_stock_notifications_consolidated` (views.py 280-297) for one
manager and one consolidated product row: when the product is adequately
stocked again (`total_quantity >= 5`), delete that manager's matching
"LOW STOCK ALERT" notifications and, if any were deleted, append a
"RESTOCKED" notification. -/
def restockStep (m : Nat) (p : ProductKey × Int) (now : Nat)
    (notifs : List Notification) : List Notification :=
  if 5 ≤ p.2 then
    let remaining := notifs.filter fun n => ¬lowStockMsgMatch m p.1 n
    if remaining.length < notifs.length then
      remaining ++ [restockNotif (now + notifs.length) m p now]
    else notifs
  else notifs

/-- `create_low_stock_notifications_consolidated` (views.py 260-324)
applied to the dashboard's data (views.py 353-356, 382, 404): first the
clear-and-restock pass over every manager × consolidated product, then new
"LOW STOCK ALERT" notifications for every still-low product × manager for
which no similar notification exists in the last 24 hours (the
`recent` oracle embeds the `created_at__gte=last_24_hours` query). -/
def createLowStockConsolidated (managers : List Nat) (stock : List Stock)
    (recent : Nat → ProductKey → Bool) (now : Nat)
    (notifs : List Notification) : List Notification :=
  let all := consolidatedStock stock
  let afterClear :=
    managers.foldl (fun ns m => all.foldl (fun ns p => restockStep m p now ns) ns)
      notifs
  afterClear ++
    (lowStockProducts stock).flatMap fun p =>
      managers.filterMap fun m =>
        if recent m p.1 then none else some (lowStockNotif (now + m) m p now)

/-! ## Marking notifications read (`mark_notification_read`, views.py 560-574) -/

/-- `mark_notification_read`: look the notification up by id (the caller —
`request.user` — is only checked for the Employee/Manager role by the view
decorators and is never compared with the notification's addressee), set
`is_read = True` and save; report success, or a 404 when no such id
exists. -/
def markNotificationRead (caller : Nat) (notifs : List Notification)
    (nid : Nat) : List Notification × Bool :=
  match notifs.find? fun n => n.id = nid with
  | none => (notifs, false)
  | some _ =>
    (notifs.map fun n => if n.id = nid then { n with is_read := true } else n,
     true)

/-! ## Helper lemmas -/

/-- Total quantity of a list of lots. -/
def sumQ (ls : List Stock) : Int := (ls.map (·.quantity)).sum

theorem sumQ_nil : sumQ [] = 0 := rfl

theorem sumQ_cons (l : Stock) (ls : List Stock) :
    sumQ (l :: ls) = l.quantity + sumQ ls := by
  simp [sumQ]

theorem sumQ_append (l₁ l₂ : List Stock) :
    sumQ (l₁ ++ l₂) = sumQ l₁ + sumQ l₂ := by
  simp [sumQ]

theorem saveStock_quantity (l : Stock) : (saveStock l).quantity = l.quantity := rfl

theorem saveStock_key (l : Stock) : (saveStock l).key = l.key := rfl

theorem sumQ_nonpos (ls : List Stock) (h : ∀ l ∈ ls, l.quantity ≤ 0) :
    sumQ ls ≤ 0 := by
  induction ls with
  | nil => simp [sumQ]
  | cons x xs ih =>
    rw [sumQ_cons]
    have hx := h x (List.mem_cons_self x xs)
    have := ih fun l hl => h l (List.mem_cons_of_mem x hl)
    omega

theorem sumQ_eq_zero (ls : List Stock) (h : ∀ l ∈ ls, l.quantity = 0) :
    sumQ ls = 0 := by
  induction ls with
  | nil => rfl
  | cons x xs ih =>
    rw [sumQ_cons, h x (List.mem_cons_self x xs),
      ih fun l hl => h l (List.mem_cons_of_mem x hl)]
    ring

theorem insertByDateDesc_perm (l : Stock) (ls : List Stock) :
    (insertByDateDesc l ls).Perm (l :: ls) := by
  induction ls with
  | nil => simp [insertByDateDesc]
  | cons x xs ih =>
    rw [insertByDateDesc]
    split
    · exact List.Perm.refl _
    · exact (List.Perm.cons x ih).trans (List.Perm.swap l x xs)

theorem sortByDateDesc_perm (ls : List Stock) :
    (sortByDateDesc ls).Perm ls := by
  induction ls with
  | nil => simp [sortByDateDesc]
  | cons x xs ih =>
    exact (insertByDateDesc_perm x (sortByDateDesc xs)).trans (List.Perm.cons x ih)

theorem sortByDateDesc_mem {ls : List Stock} {l : Stock} :
    l ∈ sortByDateDesc ls ↔ l ∈ ls :=
  (sortByDateDesc_perm ls).mem_iff

theorem sortByDateDesc_sumQ (ls : List Stock) :
    sumQ (sortByDateDesc ls) = sumQ ls := by
  unfold sumQ
  exact ((sortByDateDesc_perm ls).map (·.quantity)).sum_eq

/-- Deduction never drives a lot negative. -/
theorem deductFromLots_nonneg (rem : Int) (ls : List Stock)
    (h : ∀ l ∈ ls, 0 ≤ l.quantity) :
    ∀ l ∈ deductFromLots rem ls, 0 ≤ l.quantity := by
  induction ls generalizing rem with
  | nil => simp [deductFromLots]
  | cons x xs ih =>
    intro l hl
    rw [deductFromLots] at hl
    split at hl
    · exact h l hl
    · next h0 =>
      split at hl
      · next h1 =>
        rcases List.mem_cons.mp hl with h2 | h2
        · subst h2
          rw [saveStock_quantity]
          show (0:ℤ) ≤ x.quantity - rem
          omega
        · exact h l (List.mem_cons_of_mem x h2)
      · rcases List.mem_cons.mp hl with h2 | h2
        · subst h2
          rw [saveStock_quantity]
        · exact ih (rem - x.quantity)
            (fun l hl => h l (List.mem_cons_of_mem x hl)) l h2

/-- Deduction removes exactly the requested amount when it is covered. -/
theorem deductFromLots_sumQ (rem : Int) (ls : List Stock)
    (h0 : 0 ≤ rem) (hle : rem ≤ sumQ ls) (h : ∀ l ∈ ls, 0 ≤ l.quantity) :
    sumQ (deductFromLots rem ls) = sumQ ls - rem := by
  induction ls generalizing rem with
  | nil =>
    rw [sumQ_nil] at hle
    rw [deductFromLots, sumQ_nil]
    omega
  | cons x xs ih =>
    rw [deductFromLots]
    split
    · next h1 => rw [sumQ_cons]; omega
    · next h1 =>
      split
      · next h2 =>
        rw [sumQ_cons, sumQ_cons, saveStock_quantity]
        ring
      · next h2 =>
        rw [sumQ_cons, sumQ_cons, saveStock_quantity,
          ih (rem - x.quantity) (by omega)
            (by rw [sumQ_cons] at hle; omega)
            (fun l hl => h l (List.mem_cons_of_mem x hl))]
        ring

/-- Deduction only changes quantities and recomputed totals: every lot in
the result has the key of the lot at the same position, so a property of
all input keys holds of all output keys. -/
theorem deductFromLots_key (rem : Int) (ls : List Stock) (k : ProductKey)
    (h : ∀ l ∈ ls, l.key = k) :
    ∀ l ∈ deductFromLots rem ls, l.key = k := by
  induction ls generalizing rem with
  | nil => simp [deductFromLots]
  | cons x xs ih =>
    intro l hl
    rw [deductFromLots] at hl
    split at hl
    · exact h l hl
    · split at hl
      · rcases List.mem_cons.mp hl with h2 | h2
        · subst h2; exact h x (List.mem_cons_self x xs)
        · exact h l (List.mem_cons_of_mem x h2)
      · rcases List.mem_cons.mp hl with h2 | h2
        · subst h2; exact h x (List.mem_cons_self x xs)
        · exact ih (rem - x.quantity)
            (fun l hl => h l (List.mem_cons_of_mem x hl)) l h2

/-- Splitting a filtered sum along a second predicate. -/
theorem sumQ_filter_split (A B : Stock → Bool) (ls : List Stock) :
    sumQ (ls.filter A)
      = sumQ (ls.filter fun x => A x && B x)
        + sumQ (ls.filter fun x => A x && !B x) := by
  induction ls with
  | nil => simp [sumQ]
  | cons x xs ih =>
    by_cases hA : A x <;> by_cases hB : B x <;>
      simp [List.filter_cons, hA, hB, sumQ_cons, ih] <;> ring

/-! ## Claim C4 — sale total -/

/-- Claim C4: for every quantity `q > 0`, unit price `p > 0` and transport
flag, the computed sale total equals `round_half_up(q*p, 2)` without
transport and `round_half_up(q*p*1.05, 2)` with transport (base `q*p`,
5% fee when required, rounded half-up to two decimal places), and the
computation is pure and deterministic: equal inputs give equal totals. -/
theorem computeSaleTotal_spec (q : Int) (p : ℚ) (hq : 0 < q) (hp : 0 < p) :
    computeSaleTotal q p false = roundHalfUp2 ((q : ℚ) * p) ∧
    computeSaleTotal q p true = roundHalfUp2 ((q : ℚ) * p * (105 / 100)) ∧
    ∀ q' p' t', q' = q → p' = p →
      computeSaleTotal q' p' t' = computeSaleTotal q p t' := by
  refine ⟨rfl, ?_, ?_⟩
  · show roundHalfUp2 ((q : ℚ) * p + (q : ℚ) * p * (5 / 100)) = _
    have h : (q : ℚ) * p + (q : ℚ) * p * (5 / 100) = (q : ℚ) * p * (105 / 100) := by
      ring
    rw [h]
  · intro q' p' t' hq' hp'
    rw [hq', hp']

/-- Witness for C4 at `q = 3`, `p = 1`. -/
theorem computeSaleTotal_spec_witness :
    (0 : ℤ) < 3 ∧ (0 : ℚ) < 1 ∧
    (computeSaleTotal 3 1 false = roundHalfUp2 ((3 : ℤ) * 1 : ℚ) ∧
      computeSaleTotal 3 1 true = roundHalfUp2 (((3 : ℤ) : ℚ) * 1 * (105 / 100)) ∧
      ∀ q' p' t', q' = 3 → p' = 1 →
        computeSaleTotal q' p' t' = computeSaleTotal 3 1 t') := by
  refine ⟨by decide, by decide, ?_⟩
  have h := computeSaleTotal_spec 3 1 (by decide) (by decide)
  exact ⟨by simpa using h.1, h.2.1, h.2.2⟩

/-! ## Claim C5 — identifier generation -/

/-- Claim C5: generated ids have the form `<PREFIX>-<YYYYMMDD>-<NNNN>`;
the sequence number is 1 when no record of that prefix and day exists, and
otherwise 1 plus the sequence parsed from the lexicographically last
existing id of that prefix and day, rendered 4-digit zero-padded.
Concretely, two consecutive Sale generations on 2025-06-01 (the first
persisted before the second) yield `SALE-20250601-0001` then
`SALE-20250601-0002`, and a generation on a new day restarts at `0001`. -/
theorem genId_spec :
    (∀ pfx day existing,
      existing.filter (fun s => strStarts (idStem pfx day) s) = [] →
      genId pfx day existing = some (idStem pfx day ++ ('-' :: pad4 1))) ∧
    (∀ pfx day existing last n,
      lexLast? (existing.filter fun s => strStarts (idStem pfx day) s)
        = some last →
      digitsToNat? ((splitOnDash last).getLastD []) = some n →
      genId pfx day existing = some (idStem pfx day ++ ('-' :: pad4 (n + 1)))) ∧
    genId ("SALE".data) ("20250601".data) [] = some ("SALE-20250601-0001".data) ∧
    genId ("SALE".data) ("20250601".data) [("SALE-20250601-0001".data)]
      = some ("SALE-20250601-0002".data) ∧
    genId ("SALE".data) ("20250602".data)
      [("SALE-20250601-0001".data), ("SALE-20250601-0002".data)]
      = some ("SALE-20250602-0001".data) := by
  refine ⟨?_, ?_, by decide, by decide, by decide⟩
  · intro pfx day existing h
    simp [genId, h, lexLast?]
  · intro pfx day existing last n h1 h2
    simp only [List.getLastD_eq_getLast?] at h2
    simp [genId, h1, h2]

/-- Witness for C5's quantified parts, on the day 2025-06-01 with one
persisted id. -/
theorem genId_spec_witness :
    ([] : List Str).filter
        (fun s => strStarts (idStem ("SALE".data) ("20250601".data)) s) = [] ∧
    genId ("SALE".data) ("20250601".data) []
      = some (idStem ("SALE".data) ("20250601".data) ++ ('-' :: pad4 1)) ∧
    lexLast? ([("SALE-20250601-0001".data)].filter
        fun s => strStarts (idStem ("SALE".data) ("20250601".data)) s)
      = some ("SALE-20250601-0001".data) ∧
    digitsToNat? ((splitOnDash ("SALE-20250601-0001".data)).getLastD [])
      = some 1 ∧
    genId ("SALE".data) ("20250601".data) [("SALE-20250601-0001".data)]
      = some (idStem ("SALE".data) ("20250601".data) ++ ('-' :: pad4 (1 + 1))) := by
  refine ⟨by decide, ?_, by decide, by decide, ?_⟩
  · exact genId_spec.1 ("SALE".data) ("20250601".data) [] (by decide)
  · exact genId_spec.2.1 ("SALE".data) ("20250601".data)
      [("SALE-20250601-0001".data)] ("SALE-20250601-0001".data) 1
      (by decide) (by decide)

/-! ## Claim C1 — newest-first deduction -/

/-- The two-lot example of the claim: lots dated 2024-01-01 (qty 10) and
2024-01-05 (qty 5) of the same product. -/
def exConsumeStock : List Stock :=
  [⟨("Timber".data), ("Wood".data), 20240101, 10, 1, 10⟩,
   ⟨("Timber".data), ("Wood".data), 20240105, 5, 1, 5⟩]

/-- Claim C1: a successful sale deducts the requested quantity from the
candidate lots in date-descending order: a lot covering the remainder is
decremented in place and the walk stops, a smaller lot is set to exactly 0
with the remainder carried to the next lot, and no lot is driven negative;
the total deducted is exactly the requested quantity. Concretely, for lots
dated 2024-01-01 (qty 10) and 2024-01-05 (qty 5), consuming 12 leaves the
01-05 lot at 0 and the 01-01 lot at 3. -/
theorem consume_newest_first (rem : Int) (ls : List Stock)
    (hrem : 0 ≤ rem) (hpos : ∀ l ∈ ls, 0 < l.quantity) (hle : rem ≤ sumQ ls) :
    (∀ l ∈ deductFromLots rem ls, 0 ≤ l.quantity) ∧
    sumQ (deductFromLots rem ls) = sumQ ls - rem ∧
    (∀ (l : Stock) (ls' : List Stock), 0 < rem → rem ≤ l.quantity →
      deductFromLots rem (l :: ls')
        = saveStock { l with quantity := l.quantity - rem } :: ls') ∧
    (∀ (l : Stock) (ls' : List Stock), 0 < l.quantity → l.quantity < rem →
      deductFromLots rem (l :: ls')
        = saveStock { l with quantity := 0 }
            :: deductFromLots (rem - l.quantity) ls') ∧
    (consume exConsumeStock (("Timber".data), ("Wood".data)) 12).toOption.map
        (fun r => (r.stock.map fun l => (l.date, l.quantity), r.remaining))
      = some ([(20240105, 0), (20240101, 3)], 3) := by
  refine ⟨deductFromLots_nonneg rem ls fun l hl => le_of_lt (hpos l hl),
    deductFromLots_sumQ rem ls hrem hle fun l hl => le_of_lt (hpos l hl),
    ?_, ?_, by decide⟩
  · intro l ls' h1 h2
    rw [deductFromLots, if_neg (by omega), if_pos h2]
  · intro l ls' h0 h1
    rw [deductFromLots, if_neg (by omega), if_neg (by omega)]

/-- Witness for C1 at the claim's own example: 12 deducted from the two
lots in date-descending order. -/
theorem consume_newest_first_witness :
    (0 : ℤ) ≤ 12 ∧ (∀ l ∈ sortByDateDesc exConsumeStock, 0 < l.quantity) ∧
    12 ≤ sumQ (sortByDateDesc exConsumeStock) ∧
    ((∀ l ∈ deductFromLots 12 (sortByDateDesc exConsumeStock), 0 ≤ l.quantity) ∧
      sumQ (deductFromLots 12 (sortByDateDesc exConsumeStock))
        = sumQ (sortByDateDesc exConsumeStock) - 12 ∧
      (consume exConsumeStock (("Timber".data), ("Wood".data)) 12).toOption.map
          (fun r => (r.stock.map fun l => (l.date, l.quantity), r.remaining))
        = some ([(20240105, 0), (20240101, 3)], 3)) := by
  have h := consume_newest_first 12 (sortByDateDesc exConsumeStock)
    (by decide) (by decide) (by decide)
  exact ⟨by decide, by decide, by decide, h.1, h.2.1, h.2.2.2.2⟩

/-! ## Claim C2 — insufficient stock -/

/-- One lot whose quantity has been driven to 0: consolidated available
quantity 0, but the product still exists in the stock table. -/
def exC2Stock : List Stock :=
  [⟨("Timber".data), ("Wood".data), 20240101, 0, 1, 0⟩]

/-- Counterexample to C2 as stated: with consolidated available quantity 0
and a request of 1 (`1 > 0 = available`), the sale fails through the
"is not available in stock!" branch (views.py 848-873), not with the
insufficient-stock failure carrying available and requested. -/
theorem addSale_zero_stock_not_insufficient :
    availableQuantity exC2Stock (("Timber".data), ("Wood".data)) = 0 ∧
    (0 : ℤ) < 1 ∧
    addSaleStep ⟨exC2Stock, [], []⟩ (("Timber".data), ("Wood".data)) 1
      = (⟨exC2Stock, [], []⟩, some .productNotAvailable) ∧
    ∀ a r, SaleFailure.productNotAvailable ≠ SaleFailure.insufficientStock a r := by
  refine ⟨by decide, by decide, by decide, ?_⟩
  intro a r h
  exact SaleFailure.noConfusion h

/-- Claim C2 amended: when the consolidated available quantity is positive
and the requested quantity strictly exceeds it, the sale fails with the
insufficient-stock failure carrying both the available and the requested
quantities, and the ledger is unchanged: no lot quantity is touched and no
sale is recorded. (When the available quantity is 0 the request also fails
without mutation, but through the product-not-available branch instead.) -/
theorem addSale_insufficient_stock (s : LedgerState) (k : ProductKey) (q : Int)
    (h0 : 0 < availableQuantity s.stock k)
    (hlt : availableQuantity s.stock k < q) :
    addSaleStep s k q
      = (s, some (.insufficientStock (availableQuantity s.stock k) q)) := by
  have hq : 0 < q := lt_trans h0 hlt
  have hne : (s.stock.filter fun l => l.key = k ∧ 0 < l.quantity) ≠ [] := by
    intro hnil
    have hall : ∀ l ∈ s.stock.filter fun l => decide (l.key = k),
        l.quantity ≤ 0 := by
      intro l hl
      have hmem := (List.mem_filter.mp hl).1
      have hkey := of_decide_eq_true (List.mem_filter.mp hl).2
      by_contra hgt
      have : l ∈ s.stock.filter fun l => l.key = k ∧ 0 < l.quantity :=
        List.mem_filter.mpr ⟨hmem, by simp [hkey]; omega⟩
      rw [hnil] at this
      exact absurd this (List.not_mem_nil l)
    have : availableQuantity s.stock k ≤ 0 :=
      sumQ_nonpos _ hall
    omega
  unfold addSaleStep
  rw [if_neg (by omega)]
  unfold consume
  simp only []
  rw [if_neg (by
      push_neg
      exact ⟨by omega, by simpa [List.isEmpty_iff] using hne⟩),
    if_pos hlt]

/-- Witness for C2's amended theorem: one lot of 2 units, 5 requested. -/
theorem addSale_insufficient_stock_witness :
    0 < availableQuantity
        [⟨("Timber".data), ("Wood".data), 20240101, (2:Int), 1, 2⟩]
        (("Timber".data), ("Wood".data)) ∧
    availableQuantity
        [⟨("Timber".data), ("Wood".data), 20240101, (2:Int), 1, 2⟩]
        (("Timber".data), ("Wood".data)) < 5 ∧
    addSaleStep
        ⟨[⟨("Timber".data), ("Wood".data), 20240101, (2:Int), 1, 2⟩], [], []⟩
        (("Timber".data), ("Wood".data)) 5
      = (⟨[⟨("Timber".data), ("Wood".data), 20240101, (2:Int), 1, 2⟩], [], []⟩,
         some (.insufficientStock
            (availableQuantity
              [⟨("Timber".data), ("Wood".data), 20240101, (2:Int), 1, 2⟩]
              (("Timber".data), ("Wood".data))) 5)) :=
  ⟨by decide, by decide,
    addSale_insufficient_stock
      ⟨[⟨("Timber".data), ("Wood".data), 20240101, (2:Int), 1, 2⟩], [], []⟩
      (("Timber".data), ("Wood".data)) 5 (by decide) (by decide)⟩

/-! ## Claim C3 — conservation of stock -/

theorem sumQ_nonneg (ls : List Stock) (h : ∀ l ∈ ls, 0 ≤ l.quantity) :
    0 ≤ sumQ ls := by
  induction ls with
  | nil => simp [sumQ]
  | cons x xs ih =>
    rw [sumQ_cons]
    have hx := h x (List.mem_cons_self x xs)
    have := ih fun l hl => h l (List.mem_cons_of_mem x hl)
    omega

theorem availableQuantity_eq_sumQ (stock : List Stock) (k : ProductKey) :
    availableQuantity stock k = sumQ (stock.filter fun l => l.key = k) := rfl

theorem availableQuantity_nonneg (stock : List Stock) (k : ProductKey)
    (h : ∀ l ∈ stock, 0 ≤ l.quantity) : 0 ≤ availableQuantity stock k :=
  sumQ_nonneg _ fun l hl => h l (List.mem_filter.mp hl).1

/-- On nonnegative stock, a positive request that `consume` accepts is
deducted exactly from the requested product and from no other product,
and quantities stay nonnegative. -/
theorem consume_ok_spec (stock : List Stock) (k : ProductKey) (q : Int)
    (r : ConsumeOk) (hnn : ∀ l ∈ stock, 0 ≤ l.quantity) (hq : 0 < q)
    (h : consume stock k q = .ok r) :
    (∀ l ∈ r.stock, 0 ≤ l.quantity) ∧
    ∀ k', availableQuantity r.stock k'
      = availableQuantity stock k' - (if k' = k then q else 0) := by
  simp only [consume] at h
  split_ifs at h with h1 h2
  rw [Except.ok.injEq] at h
  subst h
  push_neg at h2
  -- abbreviations
  have hcand_mem : ∀ l ∈ stock.filter (fun l => decide (l.key = k ∧ 0 < l.quantity)),
      l.key = k ∧ 0 < l.quantity := by
    intro l hl
    exact of_decide_eq_true (List.mem_filter.mp hl).2
  have hsorted_mem : ∀ l ∈ sortByDateDesc
      (stock.filter (fun l => decide (l.key = k ∧ 0 < l.quantity))),
      l.key = k ∧ 0 < l.quantity := by
    intro l hl
    exact hcand_mem l (sortByDateDesc_mem.mp hl)
  have hDkey : ∀ l ∈ deductFromLots q (sortByDateDesc
      (stock.filter (fun l => decide (l.key = k ∧ 0 < l.quantity)))), l.key = k :=
    deductFromLots_key _ _ _ fun l hl => (hsorted_mem l hl).1
  have hDnn : ∀ l ∈ deductFromLots q (sortByDateDesc
      (stock.filter (fun l => decide (l.key = k ∧ 0 < l.quantity)))),
      0 ≤ l.quantity :=
    deductFromLots_nonneg _ _ fun l hl => le_of_lt (hsorted_mem l hl).2
  -- the zero part of the product's stock: lots filtered out as non-candidates
  have hY0 : ∀ k', sumQ (stock.filter fun l =>
      decide (l.key = k') && !decide (l.key = k ∧ 0 < l.quantity)) = 0 ∨ k' ≠ k := by
    intro k'
    by_cases hkk : k' = k
    · subst hkk
      left
      apply sumQ_eq_zero
      intro l hl
      have h3 := List.mem_filter.mp hl
      have h4 := of_decide_eq_true (Bool.and_elim_left h3.2)
      have h5 := Bool.and_elim_right h3.2
      rw [Bool.not_eq_true', decide_eq_false_iff_not] at h5
      have h6 := hnn l h3.1
      have h7 : ¬0 < l.quantity := fun hcon => h5 ⟨h4, hcon⟩
      omega
    · right; exact hkk
  have hsplit : ∀ k', availableQuantity stock k'
      = sumQ (stock.filter fun l =>
          decide (l.key = k') && decide (l.key = k ∧ 0 < l.quantity))
        + sumQ (stock.filter fun l =>
          decide (l.key = k') && !decide (l.key = k ∧ 0 < l.quantity)) := by
    intro k'
    rw [availableQuantity_eq_sumQ]
    exact sumQ_filter_split _ _ stock
  have hXcand : stock.filter (fun l =>
      decide (l.key = k) && decide (l.key = k ∧ 0 < l.quantity))
      = stock.filter (fun l => decide (l.key = k ∧ 0 < l.quantity)) := by
    apply List.filter_congr
    intro l _
    by_cases ha : l.key = k <;> by_cases hb : 0 < l.quantity <;> simp [ha, hb]
  have hYk : sumQ (stock.filter fun l =>
      decide (l.key = k) && !decide (l.key = k ∧ 0 < l.quantity)) = 0 := by
    rcases hY0 k with h | h
    · exact h
    · exact absurd rfl h
  have havailk : availableQuantity stock k
      = sumQ (stock.filter fun l => decide (l.key = k ∧ 0 < l.quantity)) := by
    rw [hsplit k, hXcand, hYk]
    ring
  have hqle : q ≤ sumQ (sortByDateDesc
      (stock.filter (fun l => decide (l.key = k ∧ 0 < l.quantity)))) := by
    rw [sortByDateDesc_sumQ]
    rw [havailk] at h2
    exact h2
  have hsumD : sumQ (deductFromLots q (sortByDateDesc
      (stock.filter (fun l => decide (l.key = k ∧ 0 < l.quantity)))))
      = sumQ (stock.filter (fun l => decide (l.key = k ∧ 0 < l.quantity))) - q := by
    rw [deductFromLots_sumQ q _ (le_of_lt hq) hqle
      (fun l hl => le_of_lt (hsorted_mem l hl).2), sortByDateDesc_sumQ]
  have huntouched : ∀ k', (List.filter (fun l => decide (l.key = k'))
      (stock.filter fun l => decide ¬(l.key = k ∧ 0 < l.quantity)))
      = stock.filter fun l =>
          decide (l.key = k') && !decide (l.key = k ∧ 0 < l.quantity) := by
    intro k'
    rw [List.filter_filter]
    apply List.filter_congr
    intro l _
    rw [decide_not]
  constructor
  · intro l hl
    rcases List.mem_append.mp hl with hl | hl
    · exact hnn l (List.mem_filter.mp hl).1
    · exact hDnn l hl
  · intro k'
    rw [availableQuantity_eq_sumQ, List.filter_append, sumQ_append, huntouched k']
    by_cases hkk : k' = k
    · subst hkk
      have hDfull : List.filter (fun l => decide (l.key = k'))
          (deductFromLots q (sortByDateDesc
            (stock.filter (fun l => decide (l.key = k' ∧ 0 < l.quantity)))))
          = deductFromLots q (sortByDateDesc
            (stock.filter (fun l => decide (l.key = k' ∧ 0 < l.quantity)))) := by
        apply List.filter_eq_self.mpr
        intro l hl
        exact decide_eq_true (hDkey l hl)
      rw [hDfull, hsumD, hYk, havailk, if_pos rfl]
      ring
    · have hDnil : List.filter (fun l => decide (l.key = k'))
          (deductFromLots q (sortByDateDesc
            (stock.filter (fun l => decide (l.key = k ∧ 0 < l.quantity)))))
          = [] := by
        apply List.filter_eq_nil_iff.mpr
        intro l hl
        simp only [decide_eq_true_eq]
        rw [hDkey l hl]
        exact fun hcon => hkk hcon.symm
      have hXnil : stock.filter (fun l =>
          decide (l.key = k') && decide (l.key = k ∧ 0 < l.quantity)) = [] := by
        apply List.filter_eq_nil_iff.mpr
        intro l _
        simp only [Bool.and_eq_true, decide_eq_true_eq, not_and]
        intro ha hb
        exact absurd (ha.symm.trans hb) hkk
        
      rw [hDnil, hsplit k', hXnil, if_neg hkk]
      simp [sumQ]

/-- Successful validation pins down the saved row and the accepted ranges. -/
theorem stockClean_ok (today : Nat) (l r : Stock)
    (h : stockClean today l = .ok r) :
    r = saveStock l ∧ l.date ≤ today ∧ 0 ≤ l.quantity ∧ 0 < l.unit_cost := by
  unfold stockClean at h
  split_ifs at h with h1 h2 h3 h4 h5
  rw [Except.ok.injEq] at h
  exact ⟨h.symm, by omega, by omega, lt_of_not_le h5⟩

theorem sumFor_append (l₁ l₂ : List (ProductKey × Int)) (k : ProductKey) :
    sumFor (l₁ ++ l₂) k = sumFor l₁ k + sumFor l₂ k := by
  simp [sumFor]

theorem sumFor_single (k' : ProductKey) (q : Int) (k : ProductKey) :
    sumFor [(k', q)] k = if k' = k then q else 0 := by
  by_cases h : k' = k <;> simp [sumFor, h]

/-- The inductive invariant of the ledger: quantities are nonnegative and
each product's consolidated quantity is its accepted receipts minus its
recorded sales. -/
def LedgerInv (s : LedgerState) : Prop :=
  (∀ l ∈ s.stock, 0 ≤ l.quantity) ∧
  ∀ k, availableQuantity s.stock k = sumFor s.receipts k - sumFor s.sales k

theorem ledgerStep_inv (today : Nat) (s : LedgerState) (op : LedgerOp)
    (h : LedgerInv s) : LedgerInv (ledgerStep today s op) := by
  obtain ⟨hnn, hbal⟩ := h
  cases op with
  | receipt l =>
    show LedgerInv (receiptStep today s l)
    unfold receiptStep
    cases hc : stockClean today l with
    | error e => exact ⟨hnn, hbal⟩
    | ok saved =>
      obtain ⟨rfl, _, hq, _⟩ := stockClean_ok today l saved hc
      refine ⟨?_, ?_⟩
      · intro x hx
        rcases List.mem_append.mp hx with hx | hx
        · exact hnn x hx
        · rw [List.mem_singleton.mp hx, saveStock_quantity]
          exact hq
      · intro k
        rw [availableQuantity_eq_sumQ, List.filter_append, sumQ_append,
          sumFor_append, sumFor_single, ← availableQuantity_eq_sumQ, hbal k]
        have : sumQ (List.filter (fun x => decide (x.key = k)) [saveStock l])
            = if l.key = k then l.quantity else 0 := by
          by_cases hk : l.key = k <;>
            simp [List.filter_cons, saveStock_key, hk, sumQ_cons, sumQ_nil,
              saveStock_quantity]
        rw [this]
        ring
  | sell k0 q =>
    show LedgerInv (addSaleStep s k0 q).1
    unfold addSaleStep
    split_ifs with hq
    · exact ⟨hnn, hbal⟩
    · cases hc : consume s.stock k0 q with
      | error e => exact ⟨hnn, hbal⟩
      | ok r =>
        obtain ⟨hrnn, hravail⟩ :=
          consume_ok_spec s.stock k0 q r hnn (by omega) hc
        refine ⟨hrnn, ?_⟩
        intro k
        rw [hravail k, hbal k, sumFor_append, sumFor_single]
        by_cases hk : k = k0
        · rw [if_pos hk, if_pos (hk ▸ rfl)]
          ring
        · rw [if_neg hk, if_neg fun hcon => hk hcon.symm]
          ring

/-- Claim C3: for every sequence of receipt and sale operations on the
ledger (invalid receipts and failed sales leave the state unchanged), each
product's consolidated available quantity equals the sum of its accepted
receipt quantities minus the sum of its successfully consumed sale
quantities, and it never goes negative. -/
theorem ledger_conservation (today : Nat) (ops : List LedgerOp)
    (k : ProductKey) :
    availableQuantity (runLedger today ops).stock k
      = sumFor (runLedger today ops).receipts k
        - sumFor (runLedger today ops).sales k ∧
    0 ≤ availableQuantity (runLedger today ops).stock k := by
  have main : ∀ (ops : List LedgerOp) (s : LedgerState), LedgerInv s →
      LedgerInv (ops.foldl (ledgerStep today) s) := by
    intro ops
    induction ops with
    | nil => intro s hs; exact hs
    | cons op ops ih =>
      intro s hs
      exact ih (ledgerStep today s op) (ledgerStep_inv today s op hs)
  have hinit : LedgerInv initLedger := by
    constructor
    · intro l hl
      exact absurd hl (List.not_mem_nil l)
    · intro k
      rfl
  obtain ⟨hnn, hbal⟩ := main ops initLedger hinit
  exact ⟨hbal k, availableQuantity_nonneg _ k hnn⟩

/-! ## Claim C6 — dashboard profit and cost of sales -/

theorem filterMap_pos_costs (ls : List Stock)
    (h : ∀ l ∈ ls, 0 < l.unit_cost) :
    (ls.filterMap fun l => if 0 < l.unit_cost then some l.unit_cost else none)
      = ls.map (·.unit_cost) := by
  induction ls with
  | nil => rfl
  | cons x xs ih =>
    rw [List.filterMap_cons, if_pos (h x (List.mem_cons_self x xs)), List.map_cons,
      ih fun l hl => h l (List.mem_cons_of_mem x hl)]

/-- Claim C6: the dashboard's cost of sales sums, over all sales, the sale
quantity times the unweighted arithmetic mean of `unit_cost` over the
stock lots matching the sale's product; a sale with no matching lots
contributes 0; the mean is insensitive to the lots' remaining quantities;
and profit is total revenue minus this cost of sales. -/
theorem dashboard_financials (stock : List Stock) (sales : List Sale)
    (s : Sale) :
    profit stock sales = totalRevenue sales - totalCostOfSales stock sales ∧
    totalCostOfSales stock sales = (sales.map fun s => saleCost stock s).sum ∧
    (matchingLots stock s = [] → saleCost stock s = 0) ∧
    ((∀ l ∈ matchingLots stock s, 0 < l.unit_cost) →
      matchingLots stock s ≠ [] →
      saleCost stock s
        = ((matchingLots stock s).map (·.unit_cost)).sum
            / ((matchingLots stock s).length : ℚ) * (s.quantity : ℚ)) ∧
    ∀ f : Stock → Int,
      saleCost (stock.map fun l => { l with quantity := f l }) s
        = saleCost stock s := by
  refine ⟨rfl, rfl, ?_, ?_, ?_⟩
  · intro h
    simp [saleCost, unitCosts, h]
  · intro hpos hne
    have hcs : unitCosts stock s = (matchingLots stock s).map (·.unit_cost) :=
      filterMap_pos_costs _ hpos
    have hne' : (matchingLots stock s).map (·.unit_cost) ≠ [] := by
      simpa using hne
    rw [saleCost, hcs, if_neg hne', List.length_map]
  · intro f
    have hmatch : matchingLots (stock.map fun l => { l with quantity := f l }) s
        = (matchingLots stock s).map fun l => { l with quantity := f l } := by
      unfold matchingLots
      rw [List.filter_map]
      rfl
    have hcosts : unitCosts (stock.map fun l => { l with quantity := f l }) s
        = unitCosts stock s := by
      unfold unitCosts
      rw [hmatch, List.filterMap_map]
      rfl
    rw [saleCost, saleCost, hcosts]

/-- Two lots of Timber (Wood) at unit costs 2 and 4. -/
def exC6Stock : List Stock :=
  [⟨("Timber".data), ("Wood".data), 20240101, 10, 2, 20⟩,
   ⟨("Timber".data), ("Wood".data), 20240102, 5, 4, 20⟩]

/-- A sale of 3 Timber (Wood). -/
def exC6Sale : Sale := ⟨("Timber".data), ("Wood".data), 20240103, 3, 10, 30, false⟩

/-- A sale of a product with no stock lots at all. -/
def exC6SaleNoLots : Sale :=
  ⟨("Sofa".data), ("Furniture".data), 20240103, 2, 10, 20, false⟩

/-- Witness for C6: the mean-cost branch on a product with two lots, and
the zero branch on a product with no lots. -/
theorem dashboard_financials_witness :
    (∀ l ∈ matchingLots exC6Stock exC6Sale, 0 < l.unit_cost) ∧
    matchingLots exC6Stock exC6Sale ≠ [] ∧
    saleCost exC6Stock exC6Sale
      = ((matchingLots exC6Stock exC6Sale).map (·.unit_cost)).sum
          / ((matchingLots exC6Stock exC6Sale).length : ℚ)
          * (exC6Sale.quantity : ℚ) ∧
    matchingLots exC6Stock exC6SaleNoLots = [] ∧
    saleCost exC6Stock exC6SaleNoLots = 0 := by
  refine ⟨by decide, by decide, ?_, by decide, ?_⟩
  · exact (dashboard_financials exC6Stock [] exC6Sale).2.2.2.1
      (by decide) (by decide)
  · exact (dashboard_financials exC6Stock [] exC6SaleNoLots).2.2.1 (by decide)

/-! ## Claim C7 — stock receipt validation and total-cost recomputation -/

/-- Claim C7: saving a stock lot fails with a `ValidationError` whenever
the quantity is negative, the unit cost is non-positive, or the date is in
the future; a successful save recomputes `total_cost = quantity *
unit_cost` while leaving quantity, cost and date as submitted; and the
saves performed while a sale deducts from the lots preserve that same
`total_cost` invariant. -/
theorem recordReceipt_validation (today : Nat) (l : Stock) :
    ((today < l.date ∨ l.quantity < 0 ∨ l.unit_cost ≤ 0) →
      ∀ r, stockClean today l ≠ .ok r) ∧
    (∀ r, stockClean today l = .ok r →
      r.total_cost = (r.quantity : ℚ) * r.unit_cost ∧
      r.quantity = l.quantity ∧ r.unit_cost = l.unit_cost ∧ r.date = l.date) ∧
    ∀ (rem : Int) (ls : List Stock),
      (∀ x ∈ ls, x.total_cost = (x.quantity : ℚ) * x.unit_cost) →
      ∀ x ∈ deductFromLots rem ls,
        x.total_cost = (x.quantity : ℚ) * x.unit_cost := by
  refine ⟨?_, ?_, ?_⟩
  · intro hbad r hok
    obtain ⟨_, hd, hq, hc⟩ := stockClean_ok today l r hok
    rcases hbad with hbad | hbad | hbad
    · omega
    · omega
    · exact absurd hbad (not_le.mpr hc)
  · intro r hok
    obtain ⟨rfl, _, _, _⟩ := stockClean_ok today l r hok
    exact ⟨rfl, rfl, rfl, rfl⟩
  · intro rem ls
    induction ls generalizing rem with
    | nil =>
      intro _ x hx
      simp [deductFromLots] at hx
    | cons a as ih =>
      intro hinv x hx
      rw [deductFromLots] at hx
      split at hx
      · exact hinv x hx
      · split at hx
        · rcases List.mem_cons.mp hx with h2 | h2
          · subst h2; rfl
          · exact hinv x (List.mem_cons_of_mem a h2)
        · rcases List.mem_cons.mp hx with h2 | h2
          · subst h2; rfl
          · exact ih (rem - a.quantity)
              (fun y hy => hinv y (List.mem_cons_of_mem a hy)) x h2

/-- A lot dated after "today": rejected. -/
def exBadLot : Stock := ⟨("Timber".data), ("Wood".data), 20240115, 2, 3, 6⟩

/-- A valid lot. -/
def exGoodLot : Stock := ⟨("Timber".data), ("Wood".data), 20240101, 2, 3, 6⟩

/-- Witness for C7: a future-dated lot is rejected on 2024-01-10; a valid
lot saves with `total_cost` recomputed; deduction keeps the invariant. -/
theorem recordReceipt_validation_witness :
    ((20240110 : Nat) < exBadLot.date ∨ exBadLot.quantity < 0 ∨
      exBadLot.unit_cost ≤ 0) ∧
    (∀ r, stockClean 20240110 exBadLot ≠ .ok r) ∧
    stockClean 20240110 exGoodLot = .ok (saveStock exGoodLot) ∧
    (saveStock exGoodLot).total_cost
      = ((saveStock exGoodLot).quantity : ℚ) * (saveStock exGoodLot).unit_cost ∧
    (∀ x ∈ [saveStock exGoodLot],
      x.total_cost = (x.quantity : ℚ) * x.unit_cost) ∧
    ∀ x ∈ deductFromLots 1 [saveStock exGoodLot],
      x.total_cost = (x.quantity : ℚ) * x.unit_cost := by
  have hmem : ∀ x ∈ [saveStock exGoodLot],
      x.total_cost = (x.quantity : ℚ) * x.unit_cost := by
    intro x hx
    rcases List.mem_cons.mp hx with h | h
    · subst h; rfl
    · exact absurd h (List.not_mem_nil x)
  refine ⟨Or.inl (by decide),
    (recordReceipt_validation 20240110 exBadLot).1 (Or.inl (by decide)),
    rfl, ?_, hmem, ?_⟩
  · exact ((recordReceipt_validation 20240110 exGoodLot).2.1
      (saveStock exGoodLot) rfl).1
  · exact (recordReceipt_validation 20240110 exGoodLot).2.2 1
      [saveStock exGoodLot] hmem

/-! ## Claim C8 — low-stock threshold -/

/-- A product whose only lot is at quantity 0: consolidated quantity 0. -/
def exC8Stock : List Stock :=
  [⟨("Timber".data), ("Wood".data), 20240101, 0, 1, 0⟩]

/-- Counterexample to C8 as stated: Timber (Wood) has consolidated
quantity 0, which is below the threshold of 5, yet running the
notification routine for manager 1 creates no notification at all — the
dashboard classifies quantity 0 as out-of-stock, not low-stock
(views.py 362 vs 382). -/
theorem lowStock_zero_quantity_not_notified :
    availableQuantity exC8Stock (("Timber".data), ("Wood".data)) = 0 ∧
    (0 : ℤ) < 5 ∧
    createLowStockConsolidated [1] exC8Stock (fun _ _ => false) 0 [] = [] := by
  refine ⟨by decide, by decide, by decide⟩

/-- Claim C8 amended: a low-stock notification is written for each manager
exactly for the products whose consolidated quantity is strictly between 0
and 5 (quantity 0 is classified out-of-stock instead), provided no similar
notification was already sent in the last 24 hours. -/
theorem lowStock_notified (managers : List Nat) (stock : List Stock)
    (recent : Nat → ProductKey → Bool) (now : Nat)
    (notifs : List Notification) (m : Nat) (k : ProductKey) (q : Int)
    (hm : m ∈ managers) (hk : (k, q) ∈ consolidatedStock stock)
    (h0 : 0 < q) (h5 : q < 5) (hr : recent m k = false) :
    lowStockNotif (now + m) m (k, q) now
      ∈ createLowStockConsolidated managers stock recent now notifs := by
  unfold createLowStockConsolidated
  apply List.mem_append.mpr
  right
  apply List.mem_flatMap.mpr
  refine ⟨(k, q), ?_, ?_⟩
  · exact List.mem_filter.mpr ⟨hk, by simp [h0, h5]⟩
  · apply List.mem_filterMap.mpr
    exact ⟨m, hm, by simp [hr]⟩

/-- One lot of 2 units: consolidated quantity 2, strictly between 0 and 5. -/
def exC8LowStock : List Stock :=
  [⟨("Timber".data), ("Wood".data), 20240101, 2, 1, 2⟩]

/-- Witness for C8's amended theorem: quantity 2 notifies manager 1. -/
theorem lowStock_notified_witness :
    (1 : Nat) ∈ [1] ∧
    ((("Timber".data), ("Wood".data)), (2 : ℤ)) ∈ consolidatedStock exC8LowStock ∧
    (0 : ℤ) < 2 ∧ (2 : ℤ) < 5 ∧
    lowStockNotif (0 + 1) 1 ((("Timber".data), ("Wood".data)), (2 : ℤ)) 0
      ∈ createLowStockConsolidated [1] exC8LowStock (fun _ _ => false) 0 [] :=
  ⟨by decide, by decide, by decide, by decide,
    lowStock_notified [1] exC8LowStock (fun _ _ => false) 0 [] 1
      (("Timber".data), ("Wood".data)) 2
      (by decide) (by decide) (by decide) (by decide) rfl⟩

/-! ## Claim C9 — notification immutability -/

/-- A "LOW STOCK ALERT" notification for Timber (Wood), addressed to
manager 1 and still unread. -/
def exOldNotif : Notification :=
  ⟨5, 1,
   ("⚠️ LOW STOCK ALERT: Timber (Wood) - Only 2 units remaining".data),
   ("warning".data), false, 0⟩

/-- Timber (Wood) fully restocked to 10 units. -/
def exC9Stock : List Stock :=
  [⟨("Timber".data), ("Wood".data), 20240101, 10, 1, 10⟩]

/-- Counterexample to C9 as stated: an existing low-stock notification is
deleted (not merely flagged) by the notification routine once its product
is adequately restocked (views.py 283-289: `old_notifications.delete()`). -/
theorem notification_deleted_on_restock :
    exOldNotif ∈ [exOldNotif] ∧
    exOldNotif ∉
      createLowStockConsolidated [1] exC9Stock (fun _ _ => false) 100
        [exOldNotif] := by
  refine ⟨List.mem_singleton.mpr rfl, by decide⟩

/-- Removal through one clear-and-restock step only happens to a
restock-eligible matching low-stock alert. -/
theorem restockStep_remove (m : Nat) (p : ProductKey × Int) (now : Nat)
    (ns : List Notification) (n : Notification)
    (hn : n ∈ ns) (hout : n ∉ restockStep m p now ns) :
    5 ≤ p.2 ∧ lowStockMsgMatch m p.1 n = true := by
  simp only [restockStep] at hout
  split_ifs at hout with h5 hlen
  · refine ⟨h5, ?_⟩
    have hnot : n ∉ ns.filter fun x => ¬lowStockMsgMatch m p.1 x :=
      fun hc => hout (List.mem_append.mpr (Or.inl hc))
    by_contra hmatch
    exact hnot (List.mem_filter.mpr ⟨hn, decide_eq_true hmatch⟩)
  · exact absurd hn hout
  · exact absurd hn hout

/-- An element lost by a fold was removed by one of its steps. -/
theorem foldl_remove {β : Type} (step : List Notification → β → List Notification)
    (Q : β → Notification → Prop)
    (hstep : ∀ ns b n, n ∈ ns → n ∉ step ns b → Q b n) :
    ∀ (bs : List β) (ns : List Notification) (n : Notification),
      n ∈ ns → n ∉ bs.foldl step ns → ∃ b ∈ bs, Q b n := by
  intro bs
  induction bs with
  | nil =>
    intro ns n hn hout
    exact absurd hn hout
  | cons b bs ih =>
    intro ns n hn hout
    by_cases hmem : n ∈ step ns b
    · obtain ⟨b', hb', hq⟩ := ih (step ns b) n hmem hout
      exact ⟨b', List.mem_cons_of_mem b hb', hq⟩
    · exact ⟨b, List.mem_cons_self b bs, hstep ns b n hn hmem⟩

/-- Claim C9 amended: after creation a notification is never field-mutated
except for its read flag — marking read preserves id, addressee, message,
category and creation time of every stored notification and deletes
nothing — and the only deletions anywhere are performed by the low-stock
routine, which removes exactly restock-eligible matching "LOW STOCK ALERT"
notifications (replacing them with a restock notice). -/
theorem notifications_immutable_amended :
    (∀ (caller : Nat) (notifs : List Notification) (nid : Nat),
      ((markNotificationRead caller notifs nid).1).map
          (fun n => (n.id, n.user, n.message, n.activity_type, n.created_at))
        = notifs.map
            fun n => (n.id, n.user, n.message, n.activity_type, n.created_at)) ∧
    ∀ (managers : List Nat) (stock : List Stock)
      (recent : Nat → ProductKey → Bool) (now : Nat)
      (notifs : List Notification) (n : Notification),
      n ∈ notifs →
      n ∉ createLowStockConsolidated managers stock recent now notifs →
      ∃ m ∈ managers, ∃ p ∈ consolidatedStock stock,
        5 ≤ p.2 ∧ lowStockMsgMatch m p.1 n = true := by
  constructor
  · intro caller notifs nid
    unfold markNotificationRead
    split
    · rfl
    · rw [List.map_map]
      apply List.map_congr_left
      intro n _
      by_cases h : n.id = nid <;> simp [h]
  · intro managers stock recent now notifs n hn hout
    simp only [createLowStockConsolidated] at hout
    have hclear : n ∉ managers.foldl
        (fun ns m => (consolidatedStock stock).foldl
          (fun ns p => restockStep m p now ns) ns) notifs :=
      fun hc => hout (List.mem_append.mpr (Or.inl hc))
    exact foldl_remove _ _
      (fun ns m n hn hout =>
        foldl_remove _ _ (fun ns p n hn hout => restockStep_remove m p now ns n hn hout)
          (consolidatedStock stock) ns n hn hout)
      managers notifs n hn hclear

/-- Witness for C9's amended theorem: the deleted alert of the
counterexample state is accounted for by a restock-eligible match. -/
theorem notifications_immutable_amended_witness :
    exOldNotif ∈ [exOldNotif] ∧
    exOldNotif ∉
      createLowStockConsolidated [1] exC9Stock (fun _ _ => true) 100
        [exOldNotif] ∧
    ∃ m ∈ [1], ∃ p ∈ consolidatedStock exC9Stock,
      5 ≤ p.2 ∧ lowStockMsgMatch m p.1 exOldNotif = true :=
  ⟨List.mem_singleton.mpr rfl, by decide,
    notifications_immutable_amended.2 [1] exC9Stock (fun _ _ => true) 100
      [exOldNotif] exOldNotif (List.mem_singleton.mpr rfl) (by decide)⟩

/-! ## Claim C10 — no ownership check when marking read -/

/-- Claim C10: for every caller that passes the role gate and every stored
notification id, marking it read succeeds and flips `is_read`, and the
result is entirely independent of who the caller is — no check relates the
caller to the notification's addressee. -/
theorem markRead_no_ownership (caller : Nat) (notifs : List Notification)
    (nid : Nat) (h : ∃ n ∈ notifs, n.id = nid) :
    markNotificationRead caller notifs nid
      = (notifs.map fun n => if n.id = nid then { n with is_read := true } else n,
         true) ∧
    (∀ caller', markNotificationRead caller' notifs nid
      = markNotificationRead caller notifs nid) ∧
    ∀ n ∈ (markNotificationRead caller notifs nid).1,
      n.id = nid → n.is_read = true := by
  obtain ⟨n0, hn0, hid⟩ := h
  have hsome : (notifs.find? fun n => n.id = nid).isSome :=
    List.find?_isSome.mpr ⟨n0, hn0, by simp [hid]⟩
  have hmain : markNotificationRead caller notifs nid
      = (notifs.map fun n => if n.id = nid then { n with is_read := true } else n,
         true) := by
    unfold markNotificationRead
    cases hf : notifs.find? fun n => n.id = nid with
    | none => rw [hf] at hsome; exact absurd hsome (by simp)
    | some x => rfl
  refine ⟨hmain, fun caller' => rfl, ?_⟩
  intro n hn hid'
  rw [hmain] at hn
  obtain ⟨n1, _, rfl⟩ := List.mem_map.mp hn
  by_cases h1 : n1.id = nid
  · simp [h1]
  · rw [if_neg h1] at hid' ⊢
    exact absurd hid' h1

/-- A notification addressed to user 2. -/
def exForeignNotif : Notification :=
  ⟨7, 2, ("New sale recorded".data), ("success".data), false, 0⟩

/-- Witness for C10: caller 1 marks user 2's notification read and the
operation reports success. -/
theorem markRead_no_ownership_witness :
    (∃ n ∈ [exForeignNotif], n.id = 7) ∧
    (1 : Nat) ≠ exForeignNotif.user ∧
    markNotificationRead 1 [exForeignNotif] 7
      = ([exForeignNotif].map
          fun n => if n.id = 7 then { n with is_read := true } else n, true) :=
  ⟨⟨exForeignNotif, List.mem_singleton.mpr rfl, rfl⟩, by decide,
    (markRead_no_ownership 1 [exForeignNotif] 7
      ⟨exForeignNotif, List.mem_singleton.mpr rfl, rfl⟩).1⟩
